import Mathlib

/-!
Verification of the `mixport` Mixpanel export client (`src/mixpanel/mixpanel.go`)
against its natural-language specification.

The development is a shallow embedding of the Go source:

* Go strings are byte sequences; we model them as `List Nat` (`GoStr`).
  All Go string operations used by the program (lexicographic comparison in
  `sort.Strings`, byte-wise percent-escaping in `url.QueryEscape`,
  concatenation, hashing) act on bytes, so this is the faithful carrier.
* `url.Values` (`map[string][]string`) is modelled as an association list;
  Go maps are unordered and every observation the program makes of a
  `url.Values` goes through key lookup or through `Encode` (which sorts the
  keys), so the association-list order is observationally irrelevant.
* `crypto/md5` is embedded in full (RFC 1321), executable, over `Nat`
  arithmetic with explicit reduction modulo 2^32.
* Fallible operations (JSON decode, JSON encode) return `Except`.
  A Go runtime panic is modelled explicitly (`ExportOutcome.crashed`):
  the Go functions in this file have no error return value, so a failure can
  only surface as a panic that aborts the process.
-/

/-- A Go string: a finite sequence of bytes. -/
abbrev GoStr := List Nat

/-- UTF-8 encoding of a single Unicode code point (standard 1-4 byte form). -/
def utf8Char (c : Nat) : List Nat :=
  if c < 128 then [c]
  else if c < 2048 then [192 ||| (c >>> 6), 128 ||| (c &&& 63)]
  else if c < 65536 then
    [224 ||| (c >>> 12), 128 ||| ((c >>> 6) &&& 63), 128 ||| (c &&& 63)]
  else
    [240 ||| (c >>> 18), 128 ||| ((c >>> 12) &&& 63),
     128 ||| ((c >>> 6) &&& 63), 128 ||| (c &&& 63)]

/-- Byte content of a Go string literal: UTF-8 encoding of the characters. -/
def gs (s : String) : GoStr :=
  s.data.foldr (fun c acc => utf8Char c.toNat ++ acc) []

/-- Go's `a <= b` on strings: byte-wise lexicographic comparison.
`sort.Strings` (used by `url.Values.Encode`) orders keys by this relation. -/
def strLeB : GoStr → GoStr → Bool
  | [], _ => true
  | _ :: _, [] => false
  | a :: as, b :: bs => if a < b then true else if b < a then false else strLeB as bs

/-- Sort an association list by key, ascending in Go string order.
This is the key-sorting step of `url.Values.Encode` (`sort.Strings(keys)`)
and of `encoding/json`'s map serialization. -/
def sortByKey {β : Type} (l : List (GoStr × β)) : List (GoStr × β) :=
  List.insertionSort (fun a b => strLeB a.1 b.1 = true) l

/-- Unreserved bytes that `url.QueryEscape` leaves unescaped:
ALPHA / DIGIT / `-` / `.` / `_` / `~`. -/
def isUnreservedByte (b : Nat) : Bool :=
  (65 ≤ b && b ≤ 90) || (97 ≤ b && b ≤ 122) || (48 ≤ b && b ≤ 57) ||
  b == 45 || b == 46 || b == 95 || b == 126

/-- Upper-case hexadecimal digit, as used by `url.QueryEscape`. -/
def hexUpper (n : Nat) : Nat := if n < 10 then 48 + n else 55 + n

/-- Go's `url.QueryEscape`: byte-wise; space becomes `+`, unreserved bytes
pass through, every other byte becomes `%XX` with upper-case hex. -/
def queryEscape (s : GoStr) : GoStr :=
  s.foldr
    (fun b acc =>
      (if isUnreservedByte b then [b]
       else if b == 32 then [43]
       else [37, hexUpper (b / 16), hexUpper (b % 16)]) ++ acc)
    []

/-- The model of Go's `url.Values` (`map[string][]string`). -/
abbrev Values := List (GoStr × List GoStr)

/-- Go `v.Set(k, value)`: the key is bound to the one-element slice. -/
def valuesSet (vs : Values) (k v : GoStr) : Values :=
  vs.filter (fun kv => !(kv.1 == k)) ++ [(k, [v])]

/-- Go `v.Add(k, value)`: append to the key's slice, creating it if absent. -/
def valuesAdd (vs : Values) (k v : GoStr) : Values :=
  if vs.any (fun kv => kv.1 == k) then
    vs.map (fun kv => if kv.1 == k then (kv.1, kv.2 ++ [v]) else kv)
  else vs ++ [(k, [v])]

/-- Go `v[k]`: the slice bound to `k`, or the empty slice if absent. -/
def valuesGet (vs : Values) (k : GoStr) : List GoStr :=
  ((vs.find? (fun kv => kv.1 == k)).map Prod.snd).getD []

/-- Join a list of byte strings with `&` (byte 38) between them. -/
def joinAmp : List GoStr → GoStr
  | [] => []
  | [x] => x
  | x :: y :: xs => x ++ 38 :: joinAmp (y :: xs)

/-- The `k=v` pieces of `url.Values.Encode`, in sorted-key order: for every
key (ascending) and every value in that key's slice (in slice order),
`QueryEscape(k) ++ "=" ++ QueryEscape(v)`. -/
def encPieces (vs : Values) : List GoStr :=
  (sortByKey vs).foldr
    (fun kv acc => kv.2.map (fun v => queryEscape kv.1 ++ 61 :: queryEscape v) ++ acc)
    []

/-- Go `url.Values.Encode()`: sorted, escaped, `&`-joined query encoding. -/
def encodeValues (vs : Values) : GoStr := joinAmp (encPieces vs)

/-! MD5 (RFC 1321), as used by `crypto/md5`.  All word arithmetic is `Nat`
with explicit reduction modulo 2^32. -/

/-- Two to the 32nd, the word modulus of MD5. -/
def mod32 : Nat := 4294967296

/-- Rotate a 32-bit word left by `s` bits. -/
def rotl32 (x s : Nat) : Nat :=
  let y := x % mod32
  ((y <<< s) % mod32) ||| (y >>> (32 - s))

/-- The MD5 sine-derived constant table `K[0..63]`. -/
def md5K : List Nat :=
  [0xd76aa478, 0xe8c7b756, 0x242070db, 0xc1bdceee,
   0xf57c0faf, 0x4787c62a, 0xa8304613, 0xfd469501,
   0x698098d8, 0x8b44f7af, 0xffff5bb1, 0x895cd7be,
   0x6b901122, 0xfd987193, 0xa679438e, 0x49b40821,
   0xf61e2562, 0xc040b340, 0x265e5a51, 0xe9b6c7aa,
   0xd62f105d, 0x02441453, 0xd8a1e681, 0xe7d3fbc8,
   0x21e1cde6, 0xc33707d6, 0xf4d50d87, 0x455a14ed,
   0xa9e3e905, 0xfcefa3f8, 0x676f02d9, 0x8d2a4c8a,
   0xfffa3942, 0x8771f681, 0x6d9d6122, 0xfde5380c,
   0xa4beea44, 0x4bdecfa9, 0xf6bb4b60, 0xbebfbc70,
   0x289b7ec6, 0xeaa127fa, 0xd4ef3085, 0x04881d05,
   0xd9d4d039, 0xe6db99e5, 0x1fa27cf8, 0xc4ac5665,
   0xf4292244, 0x432aff97, 0xab9423a7, 0xfc93a039,
   0x655b59c3, 0x8f0ccc92, 0xffeff47d, 0x85845dd1,
   0x6fa87e4f, 0xfe2ce6e0, 0xa3014314, 0x4e0811a1,
   0xf7537e82, 0xbd3af235, 0x2ad7d2bb, 0xeb86d391]

/-- The MD5 per-round shift table `S[0..63]`. -/
def md5S : List Nat :=
  [7, 12, 17, 22, 7, 12, 17, 22, 7, 12, 17, 22, 7, 12, 17, 22,
   5, 9, 14, 20, 5, 9, 14, 20, 5, 9, 14, 20, 5, 9, 14, 20,
   4, 11, 16, 23, 4, 11, 16, 23, 4, 11, 16, 23, 4, 11, 16, 23,
   6, 10, 15, 21, 6, 10, 15, 21, 6, 10, 15, 21, 6, 10, 15, 21]

/-- Little-endian 32-bit word `g` of a 64-byte block. -/
def blockWord (block : List Nat) (g : Nat) : Nat :=
  block.getD (4 * g) 0 + 256 * block.getD (4 * g + 1) 0 +
  65536 * block.getD (4 * g + 2) 0 + 16777216 * block.getD (4 * g + 3) 0

/-- One of the 64 MD5 operations, applied to the running state `(a,b,c,d)`. -/
def md5Op (block : List Nat) (st : Nat × Nat × Nat × Nat) (i : Nat) :
    Nat × Nat × Nat × Nat :=
  let a := st.1
  let b := st.2.1
  let c := st.2.2.1
  let d := st.2.2.2
  let fg : Nat × Nat :=
    if i < 16 then ((b &&& c) ||| ((b ^^^ 4294967295) &&& d), i)
    else if i < 32 then ((d &&& b) ||| ((d ^^^ 4294967295) &&& c), (5 * i + 1) % 16)
    else if i < 48 then (b ^^^ c ^^^ d, (3 * i + 5) % 16)
    else (c ^^^ (b ||| (d ^^^ 4294967295)), (7 * i) % 16)
  let tmp := (fg.1 + a + md5K.getD i 0 + blockWord block fg.2) % mod32
  (d, (b + rotl32 tmp (md5S.getD i 0)) % mod32, b, c)

/-- Process one 64-byte block, updating the MD5 state. -/
def md5Block (st : Nat × Nat × Nat × Nat) (block : List Nat) :
    Nat × Nat × Nat × Nat :=
  let r := (List.range 64).foldl (md5Op block) st
  ((st.1 + r.1) % mod32, (st.2.1 + r.2.1) % mod32,
   (st.2.2.1 + r.2.2.1) % mod32, (st.2.2.2 + r.2.2.2) % mod32)

/-- Split a byte list into consecutive 64-byte blocks (fuel-structured so the
definition reduces inside the kernel; the fuel is an upper bound on the number
of blocks). -/
def toBlocks : Nat → List Nat → List (List Nat)
  | 0, _ => []
  | _, [] => []
  | fuel + 1, l => l.take 64 :: toBlocks fuel (l.drop 64)

/-- Little-endian rendering of the low 64 bits of a number, 8 bytes. -/
def le64 (n : Nat) : List Nat :=
  [n % 256, n / 256 % 256, n / 65536 % 256, n / 16777216 % 256,
   n / 4294967296 % 256, n / 1099511627776 % 256,
   n / 281474976710656 % 256, n / 72057594037927936 % 256]

/-- Little-endian rendering of a 32-bit word, 4 bytes. -/
def le32 (n : Nat) : List Nat :=
  [n % 256, n / 256 % 256, n / 65536 % 256, n / 16777216 % 256]

/-- MD5 padding: `0x80`, zeros to 56 mod 64, then the bit length as a
little-endian 64-bit quantity. -/
def md5Pad (msg : List Nat) : List Nat :=
  msg ++ 128 :: List.replicate ((119 - msg.length % 64) % 64) 0 ++
    le64 ((msg.length * 8) % 18446744073709551616)

/-- The MD5 digest of a byte string: 16 bytes. -/
def md5Bytes (msg : List Nat) : List Nat :=
  let padded := md5Pad msg
  let st := (toBlocks (padded.length) padded).foldl md5Block
    (0x67452301, 0xefcdab89, 0x98badcfe, 0x10325476)
  le32 st.1 ++ le32 st.2.1 ++ le32 st.2.2.1 ++ le32 st.2.2.2

/-! The Mixpanel client (`mixpanel.go`). -/

/-- Credentials for the Mixpanel API, as in the `Mixpanel` struct. -/
structure Mixpanel where
  Product : GoStr
  Key : GoStr
  Secret : GoStr
  BaseURL : GoStr

/-- Signature input and `sig` value of `Mixpanel.addSignature`: the code
hashes `args.Encode()` followed by the secret and stores the RAW sixteen
digest bytes, converted directly to a string (`string(hash.Sum(nil))`),
with no hexadecimal (or any other textual) rendering. -/
def sigValue (args : Values) (secret : GoStr) : GoStr :=
  md5Bytes (encodeValues args ++ secret)

/-- Go `(m *Mixpanel) addSignature(args)`: set the `sig` parameter to the
raw digest bytes of `args.Encode() + m.Secret`. -/
def addSignature (args : Values) (secret : GoStr) : Values :=
  valuesSet args (gs ("sig")) (sigValue args secret)

/-- Go's conversion `string(n)` of an integer to a string: the UTF-8 bytes of
the code point `n`; any value that is not a valid code point (negative,
greater than 0x10FFFF, or a surrogate) yields `"�"`, the bytes
`EF BF BD`.  This is the conversion `makeArgs` applies to the expiry
timestamp — NOT a decimal rendering. -/
def goRuneString (n : Int) : GoStr :=
  if 0 ≤ n ∧ n < 55296 then utf8Char n.toNat
  else if 57344 ≤ n ∧ n ≤ 1114111 then utf8Char n.toNat
  else [239, 191, 189]

/-- Decimal digits of a natural number (fuel-structured for kernel
reduction; the fuel bound `n + 1` always suffices). -/
def decDigitsAux : Nat → Nat → List Nat
  | 0, _ => []
  | fuel + 1, n => if n < 10 then [48 + n] else decDigitsAux fuel (n / 10) ++ [48 + n % 10]

/-- The standard decimal textual rendering of a natural number, as bytes.
Stated from the spec's words ("decimal textual rendering of a Unix
timestamp") for comparison against what the code actually produces. -/
def decRender (n : Nat) : GoStr := decDigitsAux (n + 1) n

/-- Left-pad a byte string with `0` digits to width `w`. -/
def zeroPad (w : Nat) (s : GoStr) : GoStr := List.replicate (w - s.length) 48 ++ s

/-- Go `date.Format("2006-01-02")`: zero-padded `YYYY-MM-DD`. -/
def formatDate (y mo d : Nat) : GoStr :=
  zeroPad 4 (decRender y) ++ 45 :: (zeroPad 2 (decRender mo) ++ 45 :: zeroPad 2 (decRender d))

/-- Go `(m *Mixpanel) makeArgs()` with the current Unix time `now` passed
explicitly: sets `format=json`, `api_key`, and `expire`.  The code computes
the expiry as `string(time.Now().Unix()+10000)` — an integer-to-rune string
conversion, not a decimal rendering. -/
def makeArgs (m : Mixpanel) (now : Int) : Values :=
  valuesSet (valuesSet (valuesSet [] (gs ("format")) (gs ("json")))
      (gs ("api_key")) m.Key)
    (gs ("expire")) (goRuneString (now + 10000))

/-- The argument-building prefix of `ExportDate` (lines 70-84): base args,
caller-supplied extra args added pairwise, `start`/`end` set to the
formatted day, then the signature attached.  Go iterates the `moreArgs` map
in unspecified order; the fold order below fixes one order, which is
observationally irrelevant: per-key value order is preserved and every
later observation is per-key lookup or sorted encoding. -/
def exportArgs (m : Mixpanel) (now : Int) (y mo d : Nat) (moreArgs : Option Values) : Values :=
  let args := makeArgs m now
  let args := match moreArgs with
    | none => args
    | some more =>
      more.foldl (fun acc kv => kv.2.foldl (fun acc2 v => valuesAdd acc2 kv.1 v) acc) args
  let day := formatDate y mo d
  let args := valuesSet args (gs ("start")) day
  let args := valuesSet args (gs ("end")) day
  addSignature args m.Secret

/-! The JSON data model and the streaming pipeline. -/

/-- Escape of one byte inside a JSON string, following `encoding/json`
(with its default HTML escaping of `<`, `>`, `&`). -/
def jsonEscByte (b : Nat) : List Nat :=
  if b == 34 then [92, 34]
  else if b == 92 then [92, 92]
  else if b == 10 then [92, 110]
  else if b == 13 then [92, 114]
  else if b == 9 then [92, 116]
  else if b < 32 then [92, 117, 48, 48, hexUpper (b / 16) + (if b / 16 < 10 then 0 else 32), hexUpper (b % 16) + (if b % 16 < 10 then 0 else 32)]
  else if b == 60 then [92, 117, 48, 48, 51, 99]
  else if b == 62 then [92, 117, 48, 48, 51, 101]
  else if b == 38 then [92, 117, 48, 48, 50, 54]
  else [b]

/-- JSON rendering of a string: quoted, escaped. -/
def jsonStr (s : GoStr) : GoStr :=
  34 :: s.foldr (fun b acc => jsonEscByte b ++ acc) [34]

/-- JSON rendering of an integer. -/
def jsonInt (n : Int) : GoStr :=
  if n < 0 then 45 :: decRender n.natAbs else decRender n.natAbs

/-- Join byte strings with `,` (byte 44). -/
def joinComma : List GoStr → GoStr
  | [] => []
  | [x] => x
  | x :: y :: xs => x ++ 44 :: joinComma (y :: xs)

mutual

/-- A JSON value, as decoded by `encoding/json` into `interface{}`
(numbers collapsed to one numeric constructor; numeric precision plays no
role in any claim).  Array elements and object fields are given by the
mutual spine types `JSONItems` and `JSONFields`. -/
inductive JSONValue where
  | null
  | bool (b : Bool)
  | num (n : Int)
  | str (s : GoStr)
  | arr (xs : JSONItems)
  | obj (fields : JSONFields)

/-- The elements of a JSON array. -/
inductive JSONItems where
  | nil
  | cons (v : JSONValue) (rest : JSONItems)

/-- The fields of a JSON object, in source order. -/
inductive JSONFields where
  | nil
  | cons (k : GoStr) (v : JSONValue) (rest : JSONFields)

end

/-- Build an object field spine from a list of key-value pairs. -/
def fieldsOf : List (GoStr × JSONValue) → JSONFields
  | [] => .nil
  | (k, v) :: rest => .cons k v (fieldsOf rest)

/-- Build an array element spine from a list of values. -/
def itemsOf : List JSONValue → JSONItems
  | [] => .nil
  | v :: rest => .cons v (itemsOf rest)

mutual

/-- JSON serialization of a `JSONValue`, as `encoding/json` renders the
corresponding `interface{}` value: arrays in element order, objects with
their keys sorted (Go marshals `map[string]interface{}` in sorted key
order; sorting the key-to-rendering pairs after rendering each value is
the same ordering, since only keys are compared). -/
def jsonEncode : JSONValue → GoStr
  | .null => gs ("null")
  | .bool true => gs ("true")
  | .bool false => gs ("false")
  | .num n => jsonInt n
  | .str s => jsonStr s
  | .arr xs => 91 :: joinComma (encodeItems xs) ++ [93]
  | .obj fields =>
    123 :: joinComma ((sortByKey (encodeFields fields)).map
      (fun kv => jsonStr kv.1 ++ 58 :: kv.2)) ++ [125]

/-- Renderings of the elements of a JSON array, in order. -/
def encodeItems : JSONItems → List GoStr
  | .nil => []
  | .cons v rest => jsonEncode v :: encodeItems rest

/-- Keys paired with the renderings of their values, in field order. -/
def encodeFields : JSONFields → List (GoStr × GoStr)
  | .nil => []
  | .cons k v rest => (k, jsonEncode v) :: encodeFields rest

end

/-- A Go `interface{}` value stored in a `map[string]interface{}`: either a
JSON-representable value or a value `encoding/json` cannot marshal (such as
a channel or function), on which `json.Encoder.Encode` fails. -/
inductive GoValue where
  | json (v : JSONValue)
  | unsupported


/-- A Go `map[string]interface{}`, including the nil map (`none`).
Assigning into the nil map is a runtime panic in Go. -/
abbrev PropMap := Option (List (GoStr × GoValue))

/-- Go map assignment `ps[k] = v` on a non-nil map: overwrite or insert. -/
def mapSet (ps : List (GoStr × GoValue)) (k : GoStr) (v : GoValue) :
    List (GoStr × GoValue) :=
  ps.filter (fun kv => !(kv.1 == k)) ++ [(k, v)]

/-- The decoded form of the `JSONEvent` struct local to `ExportDate`.
Both of its fields are unexported in the source (`event`, `properties`),
which is why the JSON decoder can never fill them (see `decodeJSONEvent`). -/
structure GoJSONEvent where
  event : GoStr
  properties : PropMap


/-- One element pulled from the response stream by `json.Decoder.Decode`:
either a syntactically valid JSON value or a decode-level corruption. -/
inductive StreamElem where
  | val (v : JSONValue)
  | corrupt


/-- Go `decoder.Decode(&ev)` for the `JSONEvent` struct: a corrupt element
or a JSON value that is not an object (and not `null`) is a decode error;
otherwise decoding SUCCEEDS but, because both struct fields are unexported,
`encoding/json` ignores them entirely and `ev` keeps its zero value: an
empty `event` string and a nil `properties` map — regardless of the
`event` and `properties` keys present in the input object. -/
def decodeJSONEvent : StreamElem → Except Unit GoJSONEvent
  | .corrupt => .error ()
  | .val v =>
    match v with
    | .obj _ => .ok ⟨[], none⟩
    | .null => .ok ⟨[], none⟩
    | _ => .error ()

/-- The events successfully decoded before the first decode failure: the
prefix of the stream the `for` loop of `ExportDate` actually dispatches. -/
def decodedEvents : List StreamElem → List GoJSONEvent
  | [] => []
  | e :: rest =>
    match decodeJSONEvent e with
    | .error _ => []
    | .ok ev => ev :: decodedEvents rest

/-! JSON serialization of property maps, as used by `eventHandler`. -/

/-- Serialization of one map entry's value; `GoValue.unsupported` is a value
`encoding/json` cannot marshal, so marshalling the whole map fails. -/
def goValueEncode : GoValue → Except Unit GoStr
  | .json v => .ok (jsonEncode v)
  | .unsupported => .error ()

/-- Does the map hold a value `encoding/json` cannot marshal? -/
def hasUnsupported (ps : List (GoStr × GoValue)) : Bool :=
  ps.any (fun kv => match kv.2 with | .unsupported => true | .json _ => false)

/-- Go `json.Marshal` of a `map[string]interface{}`: fails if any value is
unmarshalable, otherwise renders the object with its keys sorted. -/
def jsonEncodeGoMap (ps : List (GoStr × GoValue)) : Except Unit GoStr :=
  if hasUnsupported ps then .error ()
  else .ok (123 :: joinComma ((sortByKey ps).map
    (fun kv => jsonStr kv.1 ++ 58 :: ((goValueEncode kv.2).toOption.getD []))) ++ [125])

/-! The Event Worker (`eventHandler`, lines 125-144). -/

/-- The enrichment step of `eventHandler` (lines 135-136): Go map
assignments `props["product"] = m.Product` and `props["event"] = event`,
overwriting any pre-existing keys. -/
def enrich (product event : GoStr) (ps : List (GoStr × GoValue)) :
    List (GoStr × GoValue) :=
  mapSet (mapSet ps (gs ("product")) (.json (.str product)))
    (gs ("event")) (.json (.str event))

/-- The bytes `eventHandler` sends on the output channel for one dequeued
record with (non-nil) properties `ps` (lines 138-142): it enriches the map,
runs `encoder.Encode(props)` into a fresh buffer — DISCARDING the returned
error — and sends `buf.Bytes()` unconditionally.  On success the buffer
holds the JSON plus the `\n` the encoder appends; on a marshal failure the
encoder has written nothing and the emitted chunk is empty. -/
def chunkFor (product event : GoStr) (ps : List (GoStr × GoValue)) : GoStr :=
  match jsonEncodeGoMap (enrich product event ps) with
  | .ok bs => bs ++ [10]
  | .error _ => []

/-- Processing of one dequeued record by `eventHandler`: assigning into a
nil `map[string]interface{}` (line 135) is a Go runtime panic, modelled as
`Except.error`; otherwise the worker emits `chunkFor`. -/
def handlerStep (product event : GoStr) : PropMap → Except Unit GoStr
  | none => .error ()
  | some ps => .ok (chunkFor product event ps)

/-- The full `eventHandler` loop on the queue delivered over its channel
(in delivery order, until the channel is closed): the list of chunks sent
on the output channel, or a runtime panic.  The encoder's per-record error
is never consulted by the code, so a serialization failure neither stops
the loop nor produces any report — it merely yields an empty chunk. -/
def eventHandlerRun (product event : GoStr) : List PropMap → Except Unit (List GoStr)
  | [] => .ok []
  | p :: rest =>
    match handlerStep product event p with
    | .error e => .error e
    | .ok chunk =>
      match eventHandlerRun product event rest with
      | .error e => .error e
      | .ok outs => .ok (chunk :: outs)

/-! The Event Router (the dispatch loop of `ExportDate`, lines 99-123). -/

/-- The Worker Registry: for each event-type identifier, in order of worker
creation, the sequence of records delivered to that worker's channel, in
delivery order. -/
abbrev Registry := List (GoStr × List PropMap)

/-- One dispatch step (lines 107-116): if a channel for `ev.event` exists,
the record is sent to it; otherwise a channel and worker are created and
the record is sent to the new channel. -/
def enqueue (reg : Registry) (e : GoStr) (p : PropMap) : Registry :=
  match reg with
  | [] => [(e, [p])]
  | (k, q) :: rest => if k == e then (k, q ++ [p]) :: rest else (k, q) :: enqueue rest e p

/-- The registry after the router has dispatched a list of decoded events. -/
def dispatchList (events : List GoJSONEvent) : Registry :=
  events.foldl (fun reg ev => enqueue reg ev.event ev.properties) []

/-- The queue delivered to the worker for event type `e` (empty if no such
worker was created). -/
def queueOf (reg : Registry) (e : GoStr) : List PropMap :=
  ((reg.find? (fun kv => kv.1 == e)).map Prod.snd).getD []

/-! The composed export call. -/

/-- Observable outcome of one `ExportDate` call: the chunks that reached the
caller's output channel, and whether the call completed normally or the
process was killed by a runtime panic.  `ExportDate` has no error return
value in its Go signature, so "returning an error" is not among its
possible outcomes. -/
inductive ExportOutcome where
  | completed (outputs : List GoStr)
  | crashed (outputs : List GoStr)

/-- The decode-and-dispatch loop of `ExportDate` (lines 99-123) composed
with the workers' processing.  Channels in the source are unbuffered, so a
send rendezvouses with the worker's receive; the model processes each
delivered record at its rendezvous.  A decode failure is `panic(err)` and a
worker's nil-map assignment is a runtime panic; an unrecovered panic in any
goroutine kills the whole process, so either ends the call with `crashed`,
with exactly the chunks emitted before it.  (Interleavings can reorder a
late router panic against an earlier worker panic, but every interleaving
yields the same outputs and a crash, which is all the model observes.) -/
def exportDateLoop (m : Mixpanel) (outs : List GoStr) : List StreamElem → ExportOutcome
  | [] => .completed outs
  | e :: rest =>
    match decodeJSONEvent e with
    | .error _ => .crashed outs
    | .ok ev =>
      match handlerStep m.Product ev.event ev.properties with
      | .error _ => .crashed outs
      | .ok chunk => exportDateLoop m (outs ++ [chunk]) rest

/-- Go `ExportDate` (lines 69-123), given the transport result: a transport
error hits `panic("XXX handle this. FAILED")`; otherwise the stream is
decoded and dispatched, the channels are closed and the workers drained.
The argument-building prefix is `exportArgs`; it does not affect the
emitted records and is analysed separately. -/
def exportDate (m : Mixpanel) (resp : Except Unit (List StreamElem)) : ExportOutcome :=
  match resp with
  | .error _ => .crashed []
  | .ok elems => exportDateLoop m [] elems

/-! Properties of the byte-wise string order used by `sort.Strings`. -/

/-- The Go string order is total. -/
theorem strLeB_total (a : GoStr) : ∀ b : GoStr, strLeB a b = true ∨ strLeB b a = true := by
  induction a with
  | nil => intro b; exact Or.inl rfl
  | cons x as ih =>
    intro b
    cases b with
    | nil => exact Or.inr rfl
    | cons y bs =>
      by_cases h1 : x < y
      · exact Or.inl (by simp [strLeB, h1])
      · by_cases h2 : y < x
        · exact Or.inr (by simp [strLeB, h1, h2])
        · have hxy : x = y := Nat.le_antisymm (Nat.le_of_not_lt h2) (Nat.le_of_not_lt h1)
          subst hxy
          rcases ih bs with h | h
          · exact Or.inl (by simp [strLeB, h])
          · exact Or.inr (by simp [strLeB, h])

/-- The Go string order is antisymmetric. -/
theorem strLeB_antisymm (a : GoStr) :
    ∀ b : GoStr, strLeB a b = true → strLeB b a = true → a = b := by
  induction a with
  | nil =>
    intro b _ h2
    cases b with
    | nil => rfl
    | cons y bs => simp [strLeB] at h2
  | cons x as ih =>
    intro b h1 h2
    cases b with
    | nil => simp [strLeB] at h1
    | cons y bs =>
      by_cases hxy : x < y
      · simp [strLeB, hxy, Nat.lt_asymm hxy] at h2
      · by_cases hyx : y < x
        · simp [strLeB, hxy, hyx] at h1
        · have hx : x = y := Nat.le_antisymm (Nat.le_of_not_lt hyx) (Nat.le_of_not_lt hxy)
          subst hx
          simp only [strLeB, lt_irrefl, if_neg (lt_irrefl x)] at h1 h2
          exact congrArg (x :: ·) (ih bs h1 h2)

/-- The Go string order is transitive. -/
theorem strLeB_trans (a : GoStr) :
    ∀ b c : GoStr, strLeB a b = true → strLeB b c = true → strLeB a c = true := by
  induction a with
  | nil => intro b c _ _; rfl
  | cons x as ih =>
    intro b c h1 h2
    cases b with
    | nil => simp [strLeB] at h1
    | cons y bs =>
      cases c with
      | nil => simp [strLeB] at h2
      | cons z cs =>
        by_cases hxy : x < y
        · by_cases hyz : y < z
          · simp [strLeB, Nat.lt_trans hxy hyz]
          · by_cases hzy : z < y
            · simp [strLeB, hyz, hzy] at h2
            · have hy : y = z := Nat.le_antisymm (Nat.le_of_not_lt hzy) (Nat.le_of_not_lt hyz)
              subst hy
              simp [strLeB, hxy]
        · by_cases hyx : y < x
          · simp [strLeB, hxy, hyx] at h1
          · have hx : x = y := Nat.le_antisymm (Nat.le_of_not_lt hyx) (Nat.le_of_not_lt hxy)
            subst hx
            simp only [strLeB, lt_irrefl, if_neg (lt_irrefl x)] at h1
            by_cases hxz : x < z
            · simp [strLeB, hxz]
            · by_cases hzx : z < x
              · simp [strLeB, hxz, hzx] at h2
              · have hz : x = z := Nat.le_antisymm (Nat.le_of_not_lt hzx) (Nat.le_of_not_lt hxz)
                subst hz
                simp only [strLeB, lt_irrefl, if_neg (lt_irrefl x)] at h2 ⊢
                exact ih bs cs h1 h2

instance {β : Type} : IsTotal (GoStr × β) (fun a b => strLeB a.1 b.1 = true) :=
  ⟨fun a b => strLeB_total a.1 b.1⟩

instance {β : Type} : IsTrans (GoStr × β) (fun a b => strLeB a.1 b.1 = true) :=
  ⟨fun a b c => strLeB_trans a.1 b.1 c.1⟩

/-- Key-sorting is canonical: any two association lists with the same
bindings (permutations of each other) and no duplicate keys sort to the
same list.  This is the reason `url.Values.Encode` — and hence the
signature — does not depend on Go's unspecified map iteration order. -/
theorem sortByKey_eq_of_perm {β : Type} (l1 l2 : List (GoStr × β)) (hp : l1.Perm l2)
    (hn : (l1.map Prod.fst).Nodup) : sortByKey l1 = sortByKey l2 := by
  have hperm : (sortByKey l1).Perm (sortByKey l2) :=
    (List.perm_insertionSort _ l1).trans (hp.trans (List.perm_insertionSort _ l2).symm)
  have hs1 : List.Sorted (fun a b : GoStr × β => strLeB a.1 b.1 = true) (sortByKey l1) :=
    List.sorted_insertionSort _ l1
  have hs2 : List.Sorted (fun a b : GoStr × β => strLeB a.1 b.1 = true) (sortByKey l2) :=
    List.sorted_insertionSort _ l2
  have hn1 : ((sortByKey l1).map Prod.fst).Nodup :=
    (((List.perm_insertionSort _ l1).map Prod.fst).symm).nodup hn
  have hn2 : ((sortByKey l2).map Prod.fst).Nodup :=
    (((List.perm_insertionSort _ l2).map Prod.fst).symm).nodup ((hp.map Prod.fst).nodup hn)
  have hst1 : List.Sorted (fun a b : GoStr × β => strLeB a.1 b.1 = true ∧ a.1 ≠ b.1) (sortByKey l1) :=
    hs1.and (List.pairwise_map.mp hn1)
  have hst2 : List.Sorted (fun a b : GoStr × β => strLeB a.1 b.1 = true ∧ a.1 ≠ b.1) (sortByKey l2) :=
    hs2.and (List.pairwise_map.mp hn2)
  haveI : IsAntisymm (GoStr × β) (fun a b => strLeB a.1 b.1 = true ∧ a.1 ≠ b.1) :=
    ⟨fun a b hab hba => absurd (strLeB_antisymm a.1 b.1 hab.1 hba.1) hab.2⟩
  exact List.eq_of_perm_of_sorted hperm hst1 hst2

/-- Looking up a key right after `Set` yields exactly the value just set. -/
theorem valuesGet_set_same (vs : Values) (k v : GoStr) :
    valuesGet (valuesSet vs k v) k = [v] := by
  induction vs with
  | nil => simp [valuesSet, valuesGet]
  | cons kv rest ih =>
    by_cases h : kv.1 == k
    · simpa [valuesSet, valuesGet, List.filter_cons, h] using ih
    · simpa [valuesSet, valuesGet, List.filter_cons, h, List.find?_cons] using ih

/-- The canonical query encoding is invariant under re-association of the
parameter map (no duplicate keys), because `Encode` sorts the keys. -/
theorem encodeValues_eq_of_perm (v1 v2 : Values) (hp : v1.Perm v2)
    (hn : (v1.map Prod.fst).Nodup) : encodeValues v1 = encodeValues v2 := by
  unfold encodeValues encPieces
  rw [sortByKey_eq_of_perm v1 v2 hp hn]

/-- C5. Signing is deterministic: `addSignature` computes the `sig` value
from the canonical (sorted) query encoding of the parameters plus the
secret, so any two presentations of the same parameter map (permutations
of the same bindings, no duplicate keys — the invariant of a Go map) and
the same secret receive the identical `sig` value.  In particular two
invocations on literally identical inputs agree. -/
theorem addSignature_deterministic (v1 v2 : Values) (s : GoStr) (hp : v1.Perm v2)
    (hn : (v1.map Prod.fst).Nodup) :
    valuesGet (addSignature v1 s) (gs ("sig")) = valuesGet (addSignature v2 s) (gs ("sig")) := by
  unfold addSignature sigValue
  rw [valuesGet_set_same, valuesGet_set_same, encodeValues_eq_of_perm v1 v2 hp hn]

/-- Witness for C5: two concrete presentations of the same two-binding map
receive the same signature. -/
theorem addSignature_deterministic_witness :
    ([(gs ("b"), [gs ("2")]), (gs ("a"), [gs ("1")])] : Values).Perm
        [(gs ("a"), [gs ("1")]), (gs ("b"), [gs ("2")])] ∧
    (([(gs ("b"), [gs ("2")]), (gs ("a"), [gs ("1")])] : Values).map Prod.fst).Nodup ∧
    valuesGet (addSignature [(gs ("b"), [gs ("2")]), (gs ("a"), [gs ("1")])] (gs ("s"))) (gs ("sig"))
      = valuesGet (addSignature [(gs ("a"), [gs ("1")]), (gs ("b"), [gs ("2")])] (gs ("s"))) (gs ("sig")) :=
  ⟨by decide, by decide, addSignature_deterministic _ _ _ (by decide) (by decide)⟩

/-- Is a byte an ASCII hexadecimal digit (either case)? -/
def isHexByte (b : Nat) : Bool :=
  (48 ≤ b && b ≤ 57) || (97 ≤ b && b ≤ 102) || (65 ≤ b && b ≤ 70)

set_option maxRecDepth 100000 in
/-- C4. The `sig` value `addSignature` attaches is the RAW 16-byte MD5
digest converted to a string (`string(hash.Sum(nil))`), not a hexadecimal
rendering: already for the empty parameter map and empty secret, the
attached value is the raw digest of the empty message, which contains
bytes that are not hexadecimal characters (indeed bytes above 127, i.e.
not even ASCII), so it is not a string over hexadecimal characters. -/
theorem sig_raw_digest_not_hex :
    valuesGet (addSignature [] []) (gs ("sig")) = [md5Bytes []] ∧
    (md5Bytes []).all isHexByte = false ∧
    (md5Bytes []).any (fun b => 127 < b) = true := by
  refine ⟨rfl, by decide, by decide⟩

/-! Router and worker lemmas. -/

/-- Enqueueing for key `k` appends to `k`'s queue and leaves every other
queue unchanged. -/
theorem queueOf_enqueue (reg : Registry) (k e : GoStr) (p : PropMap) :
    queueOf (enqueue reg k p) e
      = if k == e then queueOf reg e ++ [p] else queueOf reg e := by
  induction reg with
  | nil =>
    by_cases h : k = e
    · subst h; simp [enqueue, queueOf, List.find?]
    · have hb : (k == e) = false := beq_eq_false_iff_ne.mpr h
      simp [enqueue, queueOf, List.find?, hb]
  | cons kv rest ih =>
    obtain ⟨k', q⟩ := kv
    by_cases hk : k' = k
    · subst hk
      by_cases he : k' = e
      · subst he; simp [enqueue, queueOf, List.find?]
      · have hb : (k' == e) = false := beq_eq_false_iff_ne.mpr he
        simp [enqueue, queueOf, List.find?, hb]
    · have hbk : (k' == k) = false := beq_eq_false_iff_ne.mpr hk
      by_cases he : k' = e
      · subst he
        have hke : (k == k') = false := beq_eq_false_iff_ne.mpr (Ne.symm hk)
        simp [enqueue, queueOf, List.find?, hbk, hke]
      · have hbe : (k' == e) = false := beq_eq_false_iff_ne.mpr he
        simp only [enqueue, hbk, Bool.false_eq_true, if_false]
        simp only [queueOf, List.find?, hbe]
        exact ih

/-- The queue delivered to event type `e` after the router dispatches
`events` starting from registry `reg`. -/
theorem queueOf_foldl_enqueue (events : List GoJSONEvent) (reg : Registry) (e : GoStr) :
    queueOf (events.foldl (fun r ev => enqueue r ev.event ev.properties) reg) e
      = queueOf reg e
        ++ (events.filter (fun ev => ev.event == e)).map (fun ev => ev.properties) := by
  induction events generalizing reg with
  | nil => simp
  | cons ev rest ih =>
    rw [List.foldl_cons, ih, List.filter_cons]
    by_cases h : ev.event == e
    · simp [h, queueOf_enqueue]
    · simp [h, queueOf_enqueue]

/-- The worker's queue is exactly the same-event subsequence of the input,
in input order. -/
theorem queueOf_dispatchList (events : List GoJSONEvent) (e : GoStr) :
    queueOf (dispatchList events) e
      = (events.filter (fun ev => ev.event == e)).map (fun ev => ev.properties) := by
  have h := queueOf_foldl_enqueue events [] e
  simpa [dispatchList, queueOf] using h

/-- On a queue of non-nil property maps the worker emits exactly one chunk
per record, in queue order. -/
theorem eventHandlerRun_map_some (product e : GoStr)
    (qs : List (List (GoStr × GoValue))) :
    eventHandlerRun product e (qs.map some) = .ok (qs.map (chunkFor product e)) := by
  induction qs with
  | nil => rfl
  | cons ps rest ih => simp [eventHandlerRun, handlerStep, ih]

/-- Every successfully decoded record is the zero value `⟨"", nil⟩`:
the decoder cannot touch the unexported struct fields. -/
theorem decode_ok_shape (x : StreamElem) (ev : GoJSONEvent)
    (h : decodeJSONEvent x = .ok ev) : ev = ⟨[], none⟩ := by
  cases x with
  | corrupt => simp [decodeJSONEvent] at h
  | val v =>
    cases v with
    | null => simpa [decodeJSONEvent] using h.symm
    | obj fields => simpa [decodeJSONEvent] using h.symm
    | bool b => simp [decodeJSONEvent] at h
    | num n => simp [decodeJSONEvent] at h
    | str s => simp [decodeJSONEvent] at h
    | arr xs => simp [decodeJSONEvent] at h

/-- Every event the dispatch loop ever sees is the zero value. -/
theorem decodedEvents_shape (elems : List StreamElem) :
    ∀ ev ∈ decodedEvents elems, ev = ⟨[], none⟩ := by
  induction elems with
  | nil => intro ev h; simp [decodedEvents] at h
  | cons x rest ih =>
    intro ev h
    unfold decodedEvents at h
    cases hd : decodeJSONEvent x with
    | error e => rw [hd] at h; simp at h
    | ok ev0 =>
      rw [hd] at h
      rcases List.mem_cons.mp h with h' | h'
      · exact h' ▸ decode_ok_shape x ev0 hd
      · exact ih ev h'

/-- When every dispatched event has the empty event-type identifier, the
registry stays either empty or a single entry keyed by the empty string. -/
theorem dispatch_const_registry (evs : List GoJSONEvent)
    (h : ∀ ev ∈ evs, ev.event = []) :
    dispatchList evs = [] ∨ ∃ q, dispatchList evs = [([], q)] := by
  suffices H : ∀ (l : List GoJSONEvent) (reg : Registry), (∀ ev ∈ l, ev.event = []) →
      (reg = [] ∨ ∃ q, reg = [([], q)]) →
      (l.foldl (fun r ev => enqueue r ev.event ev.properties) reg = [] ∨
        ∃ q, l.foldl (fun r ev => enqueue r ev.event ev.properties) reg = [([], q)]) by
    exact H evs [] h (Or.inl rfl)
  intro l
  induction l with
  | nil => intro reg _ hreg; simpa using hreg
  | cons ev rest ih =>
    intro reg hall hreg
    rw [List.foldl_cons]
    have hev : ev.event = [] := hall ev (List.mem_cons_self ev rest)
    refine ih _ (fun x hx => hall x (List.mem_cons_of_mem ev hx)) ?_
    rcases hreg with h0 | ⟨q, hq⟩
    · subst h0; rw [hev]; exact Or.inr ⟨[ev.properties], rfl⟩
    · subst hq; rw [hev]; exact Or.inr ⟨q ++ [ev.properties], by simp [enqueue]⟩

/-- Credentials used in the concrete scenarios. -/
def mC : Mixpanel := ⟨gs ("app"), gs ("KEY"), gs ("SECRET"), gs ("http://mixpanel.com/api")⟩

/-- The spec's example record: `{"event":"signup","properties":{"distinct_id":"u1"}}`. -/
def recSignup : JSONValue :=
  .obj (fieldsOf [(gs ("event"), .str (gs ("signup"))),
    (gs ("properties"), .obj (fieldsOf [(gs ("distinct_id"), .str (gs ("u1")))]))])

/-- C1.  One well-formed record in, one enriched record out — REFUTED by
the code: the decoder leaves the unexported `properties` field nil, the
worker's first map assignment panics, and the call crashes having emitted
zero records; only the empty stream (N = 0) completes, with zero records.
The claim holds solely at N = 0. -/
theorem exportDate_singleton_crashes_without_emitting :
    exportDate mC (.ok [.val recSignup]) = .crashed [] ∧
    exportDate mC (.ok []) = .completed [] :=
  ⟨rfl, rfl⟩

/-- C2.  The emitted `event` field equals the record's event-type as it
appeared in the input — REFUTED by the code: decoding the spec's example
record yields the zero value (empty event string, nil properties), so the
worker would tag every record with the empty event name, and in fact it
panics on the nil map before emitting anything. -/
theorem decoded_event_ignores_input_event_field :
    decodeJSONEvent (.val recSignup) = .ok ⟨[], none⟩ ∧
    (gs ("signup") == ([] : GoStr)) = false ∧
    exportDate mC (.ok [.val recSignup]) = .crashed [] :=
  ⟨rfl, by decide, rfl⟩

/-- C3.  Per-event-type FIFO: the queue delivered to the worker for any
event type `e` is exactly the `e`-subsequence of the dispatched stream in
input order, and a worker emits one chunk per delivered (non-nil) record
in delivery order.  Hence the sink's records of one event type appear in
input relative order; nothing is claimed across distinct types.  (End to
end the property is never exercised with more than zero records, because
every decoded record has nil properties and crashes its worker — see C1 —
but the routing and worker loops themselves preserve order as claimed.) -/
theorem perEventType_order_preserved :
    (∀ (events : List GoJSONEvent) (e : GoStr),
      queueOf (dispatchList events) e
        = (events.filter (fun ev => ev.event == e)).map (fun ev => ev.properties)) ∧
    (∀ (product e : GoStr) (qs : List (List (GoStr × GoValue))),
      eventHandlerRun product e (qs.map some) = .ok (qs.map (chunkFor product e))) :=
  ⟨queueOf_dispatchList, eventHandlerRun_map_some⟩

/-- C6.  Stream-level faults are surfaced as an error return — REFUTED by
the code: a transport failure hits `panic("XXX handle this. FAILED")` and a
decode failure hits `panic(err)`; both crash the process (`ExportDate` has
no error return value at all).  No records are emitted for the faulting
stream and no partial record is emitted for the element that failed to
decode. -/
theorem exportDate_fault_crashes_not_error :
    exportDate mC (.error ()) = .crashed [] ∧
    exportDate mC (.ok [.corrupt]) = .crashed [] :=
  ⟨rfl, rfl⟩

/-- A well-formed record with no event-type identifier at all. -/
def recNoEvent : JSONValue :=
  .obj (fieldsOf [(gs ("properties"), .obj (fieldsOf [(gs ("distinct_id"), .str (gs ("u1")))]))])

/-- Counterexample to C7: a record with an absent event-type identifier is
NOT excluded from worker dispatch — it is delivered to a worker keyed by
the empty string — and the pipeline then crashes (nil-map panic), rather
than reporting the record and continuing. -/
theorem empty_event_record_dispatched_and_crash :
    queueOf (dispatchList (decodedEvents [.val recNoEvent])) [] = [none] ∧
    exportDate mC (.ok [.val recNoEvent]) = .crashed [] :=
  ⟨rfl, rfl⟩

/-- C7 as amended: records with an absent or empty event-type identifier
receive no special treatment — every successfully decoded record (and,
with the decoder's zero value, every record has the empty identifier) is
dispatched, in order, to the worker keyed by the empty string; no record
is reported or excluded. -/
theorem empty_event_records_not_excluded (elems : List StreamElem) :
    queueOf (dispatchList (decodedEvents elems)) []
      = (decodedEvents elems).map (fun ev => ev.properties) := by
  rw [queueOf_dispatchList]
  congr 1
  apply List.filter_eq_self.mpr
  intro ev h
  rw [decodedEvents_shape elems ev h]
  rfl

/-- A property map `encoding/json` cannot marshal. -/
def badProps : List (GoStr × GoValue) := [(gs ("x"), .unsupported)]

/-- An ordinary marshalable property map. -/
def goodProps : List (GoStr × GoValue) := [(gs ("amount"), .json (.num 10))]

/-- Counterexample to C8: on a queue holding a record whose serialization
fails followed by a good record, the worker emits TWO chunks — an empty
chunk for the failed record (the error from `encoder.Encode` is discarded
and `buf.Bytes()` is sent regardless) and then the good record's bytes —
whereas the claim requires that nothing be emitted for the failed record
and that the failure be reported. -/
theorem serialization_failure_emits_empty_chunk :
    eventHandlerRun (gs ("app")) (gs ("purchase")) [some badProps, some goodProps]
      = .ok [[], chunkFor (gs ("app")) (gs ("purchase")) goodProps] ∧
    (chunkFor (gs ("app")) (gs ("purchase")) goodProps == ([] : GoStr)) = false :=
  ⟨rfl, by decide⟩

/-- C8 as amended: a serialization failure does not terminate the worker —
every record of the queue is processed and produces exactly one chunk, in
order — but the failure is silently swallowed: the failed record yields an
empty chunk on the output channel and no report of any kind. -/
theorem worker_continues_after_serialization_failure :
    ∀ (product e : GoStr) (qs : List (List (GoStr × GoValue))),
      eventHandlerRun product e (qs.map some) = .ok (qs.map (chunkFor product e)) ∧
      (∀ ps, hasUnsupported (enrich product e ps) = true → chunkFor product e ps = []) := by
  intro product e qs
  refine ⟨eventHandlerRun_map_some product e qs, ?_⟩
  intro ps h
  unfold chunkFor jsonEncodeGoMap
  rw [if_pos h]

/-- Witness for C8's amended theorem at a concrete failing queue. -/
theorem worker_continues_after_serialization_failure_witness :
    eventHandlerRun (gs ("a")) (gs ("b")) ([badProps].map some)
      = .ok ([badProps].map (chunkFor (gs ("a")) (gs ("b")))) ∧
    chunkFor (gs ("a")) (gs ("b")) badProps = [] :=
  ⟨(worker_continues_after_serialization_failure (gs ("a")) (gs ("b")) [badProps]).1,
   (worker_continues_after_serialization_failure (gs ("a")) (gs ("b")) [badProps]).2
     badProps (by decide)⟩

/-- C9.  The outbound query carries `format=json`, the configured
`api_key`, `start`/`end` as zero-padded `YYYY-MM-DD` — all CONFIRMED — but
the `expire` parameter is REFUTED: `makeArgs` computes
`string(time.Now().Unix()+10000)`, Go's integer-to-rune conversion, which
for any realistic timestamp (greater than 0x10FFFF) produces the
replacement character `"�"` (bytes `EF BF BD`), not the decimal
rendering of the timestamp. -/
theorem exportArgs_expire_not_decimal :
    valuesGet (exportArgs mC 1760000000 2013 5 17 none) (gs ("format")) = [gs ("json")] ∧
    valuesGet (exportArgs mC 1760000000 2013 5 17 none) (gs ("api_key")) = [gs ("KEY")] ∧
    valuesGet (exportArgs mC 1760000000 2013 5 17 none) (gs ("start")) = [gs ("2013-05-17")] ∧
    valuesGet (exportArgs mC 1760000000 2013 5 17 none) (gs ("end")) = [gs ("2013-05-17")] ∧
    valuesGet (exportArgs mC 1760000000 2013 5 17 none) (gs ("expire")) = [[239, 191, 189]] ∧
    (([239, 191, 189] : GoStr) == decRender (1760000000 + 10000)) = false := by
  refine ⟨rfl, rfl, rfl, rfl, rfl, by decide⟩

/-- C10.  Because the `JSONEvent` struct's `event` and `properties` fields
are unexported, every successfully decoded record is the zero value —
empty event-type identifier, nil properties — and consequently, at every
point of every export call, the worker registry holds at most one entry,
keyed by the empty string. -/
theorem registry_single_empty_key_invariant (elems : List StreamElem) :
    (∀ ev ∈ decodedEvents elems, ev.event = ([] : GoStr) ∧ ev.properties = none) ∧
    (∀ k ∈ (dispatchList (decodedEvents elems)).map Prod.fst, k = ([] : GoStr)) ∧
    (dispatchList (decodedEvents elems)).length ≤ 1 := by
  have hshape := decodedEvents_shape elems
  refine ⟨fun ev h => by rw [hshape ev h]; exact ⟨rfl, rfl⟩, ?_, ?_⟩
  all_goals
    rcases dispatch_const_registry (decodedEvents elems)
      (fun ev h => by rw [hshape ev h]) with h0 | ⟨q, hq⟩
  · rw [h0]; intro k hk; simp at hk
  · rw [hq]; intro k hk; simpa using hk
  · rw [h0]; simp
  · rw [hq]; simp

/-- Witness for C10 at a concrete one-record stream: the stream's single
decoded event is the zero value and the registry has at most one entry. -/
theorem registry_single_empty_key_invariant_witness :
    ((⟨[], none⟩ : GoJSONEvent) ∈ decodedEvents [.val recSignup]) ∧
    ((⟨[], none⟩ : GoJSONEvent).event = ([] : GoStr) ∧
      (⟨[], none⟩ : GoJSONEvent).properties = none) ∧
    (dispatchList (decodedEvents [.val recSignup])).length ≤ 1 :=
  ⟨List.mem_singleton_self _,
   (registry_single_empty_key_invariant [.val recSignup]).1 _ (List.mem_singleton_self _),
   (registry_single_empty_key_invariant [.val recSignup]).2.2⟩
